import Mathlib

/-!
Shallow embedding of the `chai-and-daily-log` browser extension's popup
script (`src/popup.js` and the commented variant `src/unnamed/part_000`).

JavaScript plain objects with string keys (none of which look like array
indices) enumerate their properties in insertion order, so an object is
modelled as an insertion-ordered association list with unique keys.
Assigning to an existing key keeps its position; assigning a fresh key
appends it.  The `currentLog` variable either aliases the object stored at
`logs[todayKey]` or holds a detached fresh object (the `?? {}` fallback in
`popup.js`), which we record explicitly in the session state.
-/

namespace DailyLog

/-- A `DayLog` is a JS object mapping `"HH:MM:SS"` time keys to entry text. -/
abbrev DayLog := List (String × String)

/-- A `LogCollection` is a JS object mapping `"YYYY-MM-DD"` day keys to day logs. -/
abbrev LogCollection := List (String × DayLog)

/-- Property read `m[key]`: the value at the first matching key, if any. -/
def getKey {α : Type} : List (String × α) → String → Option α
  | [], _ => none
  | (k, v) :: rest, key => if k = key then some v else getKey rest key

/-- Property write `m[key] = val`: replace in place when the key is present,
append when it is absent (JS insertion-order semantics). -/
def setKey {α : Type} : List (String × α) → String → α → List (String × α)
  | [], key, val => [(key, val)]
  | (k, v) :: rest, key, val =>
    if k = key then (k, val) :: rest else (k, v) :: setKey rest key val

/-- Number of bindings carrying a given key. -/
def countKey {α : Type} : List (String × α) → String → Nat
  | [], _ => 0
  | (k, _) :: rest, key => (if k = key then 1 else 0) + countKey rest key

/-- The key sequence of an object, in property order. -/
def keys {α : Type} (m : List (String × α)) : List String :=
  m.map Prod.fst

/-- Well-formedness of a JS object model: keys are unique. -/
def NodupKeys {α : Type} (m : List (String × α)) : Prop :=
  (keys m).Nodup

instance decNodupKeys {α : Type} (m : List (String × α)) : Decidable (NodupKeys m) :=
  inferInstanceAs (Decidable (keys m).Nodup)

theorem getKey_setKey_self {α : Type} (m : List (String × α)) (k : String) (v : α) :
    getKey (setKey m k v) k = some v := by
  induction m with
  | nil => simp [setKey, getKey]
  | cons hd tl ih =>
    obtain ⟨k', v'⟩ := hd
    by_cases h : k' = k
    · simp [setKey, getKey, h]
    · simp [setKey, getKey, h, ih]

theorem getKey_setKey_ne {α : Type} (m : List (String × α)) (k k' : String) (v : α)
    (h : k' ≠ k) : getKey (setKey m k v) k' = getKey m k' := by
  induction m with
  | nil => simp [setKey, getKey, Ne.symm h]
  | cons hd tl ih =>
    obtain ⟨k₀, v₀⟩ := hd
    by_cases h₀ : k₀ = k
    · subst h₀
      simp [setKey, getKey, Ne.symm h]
    · simp [setKey, getKey, h₀, ih]

theorem setKey_setKey_self {α : Type} (m : List (String × α)) (k : String) (a b : α) :
    setKey (setKey m k a) k b = setKey m k b := by
  induction m with
  | nil => simp [setKey]
  | cons hd tl ih =>
    obtain ⟨k₀, v₀⟩ := hd
    by_cases h₀ : k₀ = k
    · simp [setKey, h₀]
    · simp [setKey, h₀, ih]

theorem countKey_eq_zero_of_not_mem {α : Type} (m : List (String × α)) (k : String)
    (h : k ∉ keys m) : countKey m k = 0 := by
  induction m with
  | nil => rfl
  | cons hd tl ih =>
    obtain ⟨k₀, v₀⟩ := hd
    simp only [keys, List.map_cons, List.mem_cons, not_or] at h
    have hne : k₀ ≠ k := fun hh => h.1 hh.symm
    simp [countKey, hne, ih (by simpa [keys] using h.2)]

theorem countKey_setKey_self {α : Type} (m : List (String × α)) (k : String) (v : α)
    (h : NodupKeys m) : countKey (setKey m k v) k = 1 := by
  induction m with
  | nil => simp [setKey, countKey]
  | cons hd tl ih =>
    obtain ⟨k₀, v₀⟩ := hd
    simp only [NodupKeys, keys, List.map_cons, List.nodup_cons] at h
    by_cases h₀ : k₀ = k
    · subst h₀
      have : countKey tl k₀ = 0 :=
        countKey_eq_zero_of_not_mem tl k₀ (by simpa [keys] using h.1)
      simp [setKey, countKey, this]
    · simp [setKey, countKey, h₀, ih h.2]

/-! Rendering sort.  `updateUIState` sorts `Object.entries(...)` with the
comparator `([keyA], [keyB]) => keyB.localeCompare(keyA)`; on the fixed-width
ASCII digit/punctuation keys used here `localeCompare` agrees with code-unit
(lexicographic) comparison, so the comparator is descending lexicographic
order on keys.  `Array.prototype.sort` is stable, and since the keys of a JS
object are unique, any comparison sort produces the same sequence; we model
it as an insertion sort. -/

/-- Lexicographic strictly-less-than on character lists, comparing code
points (for the basic-plane characters of day and time keys, the UTF-16
code-unit order JS string comparison uses). -/
def charListLtB : List Char → List Char → Bool
  | _, [] => false
  | [], _ :: _ => true
  | a :: as, b :: bs =>
    if a.toNat < b.toNat then true
    else if b.toNat < a.toNat then false
    else charListLtB as bs

/-- JS string comparison `a < b` (equivalently `a.localeCompare(b) < 0` on
the ASCII keys in play). -/
def strLtB (a b : String) : Bool :=
  charListLtB a.data b.data

theorem charListLtB_asymm : ∀ (a b : List Char),
    charListLtB a b = true → charListLtB b a = false
  | a, [], h => by cases a <;> simp [charListLtB] at h
  | [], _ :: _, _ => rfl
  | a₀ :: as, b₀ :: bs, h => by
    simp only [charListLtB] at h ⊢
    by_cases hab : a₀.toNat < b₀.toNat
    · have hba : ¬b₀.toNat < a₀.toNat := by omega
      simp [hab, hba]
    · by_cases hba : b₀.toNat < a₀.toNat
      · simp [hab, hba] at h
      · have h' : charListLtB as bs = true := by simpa [hab, hba] using h
        simpa [hab, hba] using charListLtB_asymm as bs h'

theorem charListLtB_trans : ∀ (a b c : List Char),
    charListLtB a b = true → charListLtB b c = true → charListLtB a c = true
  | _, b, [], _, h2 => by cases b <;> simp [charListLtB] at h2
  | a, [], _ :: _, h1, _ => by cases a <;> simp [charListLtB] at h1
  | [], _ :: _, _ :: _, _, _ => rfl
  | a₀ :: as, b₀ :: bs, c₀ :: cs, h1, h2 => by
    simp only [charListLtB] at h1 h2 ⊢
    by_cases hab : a₀.toNat < b₀.toNat
    · by_cases hbc : b₀.toNat < c₀.toNat
      · have : a₀.toNat < c₀.toNat := by omega
        simp [this]
      · by_cases hcb : c₀.toNat < b₀.toNat
        · simp [hbc, hcb] at h2
        · have : a₀.toNat < c₀.toNat := by omega
          simp [this]
    · by_cases hba : b₀.toNat < a₀.toNat
      · simp [hab, hba] at h1
      · by_cases hbc : b₀.toNat < c₀.toNat
        · have : a₀.toNat < c₀.toNat := by omega
          simp [this]
        · by_cases hcb : c₀.toNat < b₀.toNat
          · simp [hbc, hcb] at h2
          · have h1' : charListLtB as bs = true := by simpa [hab, hba] using h1
            have h2' : charListLtB bs cs = true := by simpa [hbc, hcb] using h2
            have hac : ¬a₀.toNat < c₀.toNat := by omega
            have hca : ¬c₀.toNat < a₀.toNat := by omega
            simpa [hac, hca] using charListLtB_trans as bs cs h1' h2'

theorem strLtB_asymm (a b : String) (h : strLtB a b = true) : strLtB b a = false :=
  charListLtB_asymm a.data b.data h

theorem strLtB_trans (a b c : String) (h1 : strLtB a b = true)
    (h2 : strLtB b c = true) : strLtB a c = true :=
  charListLtB_trans a.data b.data c.data h1 h2

def insertDesc {α : Type} (x : String × α) : List (String × α) → List (String × α)
  | [] => [x]
  | y :: ys => if strLtB y.1 x.1 then x :: y :: ys else y :: insertDesc x ys

def sortDesc {α : Type} : List (String × α) → List (String × α)
  | [] => []
  | x :: xs => insertDesc x (sortDesc xs)

/-- Relation holding between successive rendered entries: the earlier key
is not below the later one. -/
def KeyDesc {α : Type} (a b : String × α) : Prop := strLtB a.1 b.1 = false

theorem mem_insertDesc {α : Type} (x z : String × α) (l : List (String × α)) :
    z ∈ insertDesc x l ↔ z = x ∨ z ∈ l := by
  induction l with
  | nil => simp [insertDesc]
  | cons y ys ih =>
    by_cases hlt : strLtB y.1 x.1 = true
    · simp [insertDesc, hlt]
    · simp [insertDesc, hlt, ih]
      tauto

theorem insertDesc_perm {α : Type} (x : String × α) (l : List (String × α)) :
    List.Perm (insertDesc x l) (x :: l) := by
  induction l with
  | nil => exact List.Perm.refl _
  | cons y ys ih =>
    by_cases hlt : strLtB y.1 x.1 = true
    · simp [insertDesc, hlt]
    · simp only [insertDesc, hlt, if_false]
      exact (List.Perm.cons y ih).trans (List.Perm.swap x y ys)

theorem sortDesc_perm {α : Type} (l : List (String × α)) : List.Perm (sortDesc l) l := by
  induction l with
  | nil => exact List.Perm.refl _
  | cons x xs ih =>
    exact (insertDesc_perm x (sortDesc xs)).trans (List.Perm.cons x ih)

theorem pairwise_insertDesc {α : Type} (x : String × α) (l : List (String × α))
    (h : List.Pairwise KeyDesc l) : List.Pairwise KeyDesc (insertDesc x l) := by
  induction l with
  | nil => simp [insertDesc, KeyDesc]
  | cons y ys ih =>
    rw [List.pairwise_cons] at h
    by_cases hlt : strLtB y.1 x.1 = true
    · simp only [insertDesc]
      rw [if_pos hlt, List.pairwise_cons, List.pairwise_cons]
      refine ⟨?_, ?_, h.2⟩
      · intro z hz
        rcases List.mem_cons.mp hz with rfl | hz
        · exact strLtB_asymm _ _ hlt
        · cases hb : strLtB x.1 z.1 with
          | false => exact hb
          | true =>
            have hcon := strLtB_trans _ _ _ hlt hb
            rw [h.1 z hz] at hcon
            exact absurd hcon Bool.false_ne_true
      · exact h.1
    · simp only [insertDesc]
      rw [if_neg hlt, List.pairwise_cons]
      refine ⟨?_, ih h.2⟩
      intro z hz
      rcases (mem_insertDesc x z ys).mp hz with rfl | hz
      · cases hb : strLtB y.1 z.1 with
        | false => exact hb
        | true => exact absurd hb hlt
      · exact h.1 z hz

theorem pairwise_sortDesc {α : Type} (l : List (String × α)) :
    List.Pairwise KeyDesc (sortDesc l) := by
  induction l with
  | nil => simp [sortDesc]
  | cons x xs ih => exact pairwise_insertDesc x (sortDesc xs) ih

/-! JS primitives used by the initialization path: default ascending
`Array.prototype.sort` on `Object.keys`, `.at(-1)`, and string falsiness. -/

def insertAsc (x : String) : List String → List String
  | [] => [x]
  | y :: ys => if x < y then x :: y :: ys else y :: insertAsc x ys

/-- Default `Array.prototype.sort()` on an array of strings: ascending
code-unit order. -/
def sortAsc : List String → List String
  | [] => []
  | x :: xs => insertAsc x (sortAsc xs)

/-- Array read `arr.at(-1)`: the final element, or `undefined` on an empty
array. -/
def jsAtLast {α : Type} : List α → Option α
  | [] => none
  | [a] => some a
  | _ :: b :: rest => jsAtLast (b :: rest)

/-- Truthiness test `!x` on a possibly-undefined string: `undefined` and the
empty string are falsy. -/
def jsFalsyStr : Option String → Bool
  | none => true
  | some s => s = ""

theorem mem_insertAsc (x z : String) (l : List String) :
    z ∈ insertAsc x l ↔ z = x ∨ z ∈ l := by
  induction l with
  | nil => simp [insertAsc]
  | cons y ys ih =>
    by_cases hlt : x < y
    · simp [insertAsc, hlt]
    · simp [insertAsc, hlt, ih]
      tauto

theorem mem_sortAsc (z : String) (l : List String) : z ∈ sortAsc l ↔ z ∈ l := by
  induction l with
  | nil => simp [sortAsc]
  | cons x xs ih => simp [sortAsc, mem_insertAsc, ih]

theorem insertAsc_ne_nil (x : String) (l : List String) : insertAsc x l ≠ [] := by
  cases l with
  | nil => simp [insertAsc]
  | cons y ys =>
    by_cases hlt : x < y
    · simp [insertAsc, hlt]
    · simp [insertAsc, hlt]

theorem sortAsc_ne_nil (x : String) (l : List String) : sortAsc (x :: l) ≠ [] := by
  simp only [sortAsc]
  exact insertAsc_ne_nil x (sortAsc l)

theorem jsAtLast_mem {α : Type} : ∀ (l : List α) (x : α), jsAtLast l = some x → x ∈ l
  | [], x, h => by simp [jsAtLast] at h
  | [a], x, h => by
    simp only [jsAtLast, Option.some.injEq] at h
    simp [h]
  | a :: b :: rest, x, h => by
    simp only [jsAtLast] at h
    exact List.mem_cons_of_mem a (jsAtLast_mem (b :: rest) x h)

theorem jsAtLast_isSome {α : Type} (l : List α) (h : l ≠ []) :
    (jsAtLast l).isSome = true := by
  induction l with
  | nil => exact absurd rfl h
  | cons a as ih =>
    cases as with
    | nil => rfl
    | cons b rest => simpa [jsAtLast] using ih (by simp)

/-! Input trimming.  Submission handlers call `(logInput.value || "").trim()`
and only call `logEntry` when the trimmed string is truthy (non-empty). -/

/-- Characters removed by `String.prototype.trim`: the full ECMAScript
WhiteSpace and LineTerminator classes — TAB, LF, VT, FF, CR, SP, NBSP,
U+1680, the U+2000–U+200A spaces, LS (U+2028), PS (U+2029), U+202F,
U+205F, U+3000 (ideographic space) and ZWNBSP (U+FEFF). -/
def isJsSpace (c : Char) : Bool :=
  c.toNat = 0x09 || c.toNat = 0x0a || c.toNat = 0x0b || c.toNat = 0x0c ||
  c.toNat = 0x0d || c.toNat = 0x20 || c.toNat = 0xa0 || c.toNat = 0x1680 ||
  (0x2000 <= c.toNat && c.toNat <= 0x200a) || c.toNat = 0x2028 ||
  c.toNat = 0x2029 || c.toNat = 0x202f || c.toNat = 0x205f ||
  c.toNat = 0x3000 || c.toNat = 0xfeff

/-- Model of `String.prototype.trim`: strip leading and trailing whitespace. -/
def jsTrim (s : String) : String :=
  String.mk (((s.data.dropWhile isJsSpace).reverse.dropWhile isJsSpace).reverse)

/-! Day keys.  Both variants compute
`const todayKey = new Date().toISOString().slice(0, 10)`.
A JS `Date` is an instant (milliseconds since the Unix epoch, UTC); we model
instants at minute resolution, which suffices for calendar dates.
`toISOString` renders the UTC calendar date, whereas the spec speaks of the
caller's local calendar date; the local clock is the instant shifted by
`-getTimezoneOffset()` minutes (`offset = UTC - local`). -/

/-- Convert a count of days since 1970-01-01 to a proleptic Gregorian
`(year, month, day)` triple (standard civil-from-days computation). -/
def civilFromDays (z₀ : Int) : Int × Nat × Nat :=
  let z := z₀ + 719468
  let era : Int := z.fdiv 146097
  let doe : Int := z - era * 146097
  let yoe : Int := (doe - doe.fdiv 1460 + doe.fdiv 36524 - doe.fdiv 146096).fdiv 365
  let y : Int := yoe + era * 400
  let doy : Int := doe - (365 * yoe + yoe.fdiv 4 - yoe.fdiv 100)
  let mp : Int := (5 * doy + 2).fdiv 153
  let d : Int := doy - (153 * mp + 2).fdiv 5 + 1
  let m : Int := if mp < 10 then mp + 3 else mp - 9
  (if m ≤ 2 then y + 1 else y, m.toNat, d.toNat)

/-- Zero-pad a number below 100 to two digits. -/
def pad2 (n : Nat) : String :=
  if n < 10 then "0" ++ toString n else toString n

/-- Render a civil date as `YYYY-MM-DD` (years 1000–9999, as `toISOString`
does for contemporary dates). -/
def formatYMD (ymd : Int × Nat × Nat) : String :=
  toString ymd.1 ++ "-" ++ pad2 ymd.2.1 ++ "-" ++ pad2 ymd.2.2

/-- The day key of the source: `new Date().toISOString().slice(0, 10)`,
i.e. the UTC calendar date of the instant, rendered `YYYY-MM-DD`.  The
instant is given in minutes since the Unix epoch. -/
def todayKeyOf (utcMinutes : Int) : String :=
  formatYMD (civilFromDays (utcMinutes.fdiv 1440))

/-- Modelled from the spec's words, for comparison with `todayKeyOf`: the
**local** calendar date of the instant, rendered `YYYY-MM-DD`.  `tzOffset`
is `getTimezoneOffset()` in minutes (UTC minus local), so local wall-clock
time is the instant minus the offset. -/
def localDayKey (utcMinutes tzOffset : Int) : String :=
  formatYMD (civilFromDays ((utcMinutes - tzOffset).fdiv 1440))

/-! Session state.  The script holds two ambient variables, `logs` and
`currentLog`.  After initialization `currentLog` is either the very object
stored at `logs[todayKey]` (assignment `currentLog = logs[todayKey]`) or a
fresh detached object (the `?? {}` fallback).  We record which of the two
holds; mutations through the view are then applied to `logs[todayKey]`
exactly when the view aliases it, which is the observable content of JS
reference identity here. -/

/-- What the `currentLog` variable refers to: the object at
`logs[todayKey]`, or a detached object with the given contents. -/
inductive CurrentRef : Type
  | today : CurrentRef
  | detached : DayLog → CurrentRef
deriving DecidableEq, Repr

/-- The ambient state of the popup script after initialization. -/
structure SessionState : Type where
  logs : LogCollection
  todayKey : String
  cur : CurrentRef
deriving DecidableEq, Repr

/-- Contents of the object the `currentLog` variable refers to. -/
def currentView (s : SessionState) : DayLog :=
  match s.cur with
  | .today => (getKey s.logs s.todayKey).getD []
  | .detached d => d

/-- What `chrome.storage.local.set({ logs, currentLog })` persists. -/
structure SaveWrite : Type where
  logs : LogCollection
  currentLog : DayLog
deriving DecidableEq, Repr

/-- Initialization callback of `src/popup.js`:

    logs = result.logs || {};
    let latestKey = Object.keys(logs).sort().at(-1);
    const todayKey = new Date().toISOString().slice(0,10);
    if (!latestKey) { logs[todayKey] = {}; }
    currentLog = logs[todayKey] ?? {};

`persisted` is `result.logs` (`none` when the key is absent); `todayKey` is
passed in since it only depends on the clock. -/
def popupInit (persisted : Option LogCollection) (todayKey : String) : SessionState :=
  let logs := persisted.getD []
  let latestKey := jsAtLast (sortAsc (keys logs))
  let logs := if jsFalsyStr latestKey then setKey logs todayKey [] else logs
  match getKey logs todayKey with
  | some _ => ⟨logs, todayKey, .today⟩
  | none => ⟨logs, todayKey, .detached []⟩

/-- Initialization callback of `src/unnamed/part_000`:

    logs = result.logs || {};
    const todayKey = new Date().toISOString().slice(0, 10);
    if (!logs[todayKey]) { logs[todayKey] = {}; }
    currentLog = logs[todayKey];

An absent property is `undefined` (falsy) and a present day log is an
object (truthy), so the guard tests absence. -/
def part000Init (persisted : Option LogCollection) (todayKey : String) : SessionState :=
  let logs := persisted.getD []
  let logs := if (getKey logs todayKey).isNone then setKey logs todayKey [] else logs
  ⟨logs, todayKey, .today⟩

/-- Body of `logEntry` acting on the day-log object `currentLog` refers to:

    if (!currentLog[currentTime]) { currentLog[currentTime] = ''; }
    currentLog[currentTime] = newLog;

An absent property and the empty string are both falsy. -/
def setEntryJS (d : DayLog) (timeKey text : String) : DayLog :=
  let d := if jsFalsyStr (getKey d timeKey) then setKey d timeKey "" else d
  setKey d timeKey text

/-- One `logEntry(newLog)` call: mutate the object `currentLog` refers to at
the current `HH:MM:SS` time key, then `saveState()` persists
`{ logs, currentLog }`.  Returns the new state and the single storage
write. -/
def logEntry (s : SessionState) (timeKey text : String) : SessionState × SaveWrite :=
  let newView := setEntryJS (currentView s) timeKey text
  let s' : SessionState :=
    match s.cur with
    | .today => { s with logs := setKey s.logs s.todayKey newView }
    | .detached _ => { s with cur := .detached newView }
  (s', ⟨s'.logs, newView⟩)

/-- One submission through either UI handler:

    const newLog = (logInput.value || "").trim();
    if (newLog) logEntry(newLog);

Returns the resulting state and the list of storage writes performed. -/
def submit (s : SessionState) (raw timeKey : String) : SessionState × List SaveWrite :=
  let text := jsTrim raw
  if text = "" then (s, [])
  else
    let r := logEntry s timeKey text
    (r.1, [r.2])

/-- Rendering of today's list in `updateUIState`:
`Object.entries(currentLog)` sorted by descending key.  When the view is
empty the loop body never runs and the cleared list stays empty, which
coincides with sorting the empty entry list. -/
def renderToday (s : SessionState) : List (String × String) :=
  sortDesc (currentView s)

/-- Rendering of the all-history list in `updateUIState`: days sorted by
descending key, each day's entries sorted by descending key. -/
def renderAll (logs : LogCollection) : List (String × DayLog) :=
  (sortDesc logs).map (fun p => (p.1, sortDesc p.2))

theorem setEntryJS_eq_setKey (d : DayLog) (timeKey text : String) :
    setEntryJS d timeKey text = setKey d timeKey text := by
  unfold setEntryJS
  by_cases h : jsFalsyStr (getKey d timeKey) = true
  · simp [h, setKey_setKey_self]
  · simp [h]

theorem currentView_logEntry (s : SessionState) (timeKey text : String) :
    currentView (logEntry s timeKey text).1 =
      setKey (currentView s) timeKey text := by
  cases hc : s.cur with
  | today =>
    simp [logEntry, currentView, hc, getKey_setKey_self, setEntryJS_eq_setKey]
  | detached d =>
    simp [logEntry, currentView, hc, setEntryJS_eq_setKey]

theorem logEntry_write_eq (s : SessionState) (timeKey text : String) :
    (logEntry s timeKey text).2 =
      ⟨(logEntry s timeKey text).1.logs, currentView (logEntry s timeKey text).1⟩ := by
  cases hc : s.cur with
  | today =>
    simp [logEntry, currentView, hc, getKey_setKey_self, setEntryJS_eq_setKey]
  | detached d =>
    simp [logEntry, currentView, hc]

/-- C1: the aliasing guarantee fails in `src/popup.js`.  When the persisted
collection is non-empty but lacks today's key, initialization leaves
`currentLog` a detached empty object rather than the object at
`logs[todayKey]`: an entry recorded through the view is visible in the view
but `collection[todayKey]` does not even exist afterwards, so the two are
not the identical object. -/
theorem popup_aliasing_violated_on_nonempty_history :
    (popupInit (some [("2024-01-14", [("10:00:00", "x")])]) "2024-01-15").cur =
      CurrentRef.detached [] ∧
    getKey (currentView (logEntry
        (popupInit (some [("2024-01-14", [("10:00:00", "x")])]) "2024-01-15")
        "09:00:00" "tea").1) "09:00:00" = some "tea" ∧
    getKey (logEntry
        (popupInit (some [("2024-01-14", [("10:00:00", "x")])]) "2024-01-15")
        "09:00:00" "tea").1.logs "2024-01-15" = none := by
  decide

/-- C2: the lazy-creation guarantee fails in `src/popup.js`.  Starting from
a persisted non-empty collection without today's key, initialization
completes with `collection[todayKey]` still absent: the creation is guarded
by `if (!latestKey)`, which tests whether the collection has *any* key
rather than whether today's key is present. -/
theorem popup_todayKey_left_absent :
    getKey (popupInit (some [("2024-01-14", [("10:15:00", "chai")])])
      "2024-01-15").logs "2024-01-15" = none := by
  decide

/-- C3: with no persisted state, initialization followed by
`recordEntry("a")` leaves the entry in `collection[todayKey]` under the
computed time key — no data loss on first run (for every day key and time
key). -/
theorem first_run_records_entry_in_collection (dayKey timeKey : String) :
    getKey ((getKey ((logEntry (popupInit none dayKey) timeKey "a").1.logs)
      dayKey).getD []) timeKey = some "a" := by
  simp [popupInit, keys, sortAsc, jsAtLast, jsFalsyStr, setKey, getKey, logEntry,
    currentView, setEntryJS_eq_setKey, getKey_setKey_self]

/-- C4 (counterexample): the day key is not the caller's local calendar
date.  At the instant 270 minutes into the Unix epoch (1970-01-01 04:30
UTC), a caller at UTC offset +300 minutes (UTC−5, i.e. 23:30 on 1969-12-31
local time) gets the key `"1970-01-01"` from `toISOString().slice(0,10)`,
while the local calendar date is `"1969-12-31"`. -/
theorem todayKey_differs_from_local_date :
    todayKeyOf 270 = "1970-01-01" ∧
    localDayKey 270 300 = "1969-12-31" ∧
    todayKeyOf 270 ≠ localDayKey 270 300 := by
  refine ⟨by decide, by decide, by decide⟩

/-- C4 (amended): the day key is the **UTC** calendar date of the current
instant rendered as `YYYY-MM-DD` (that is, the local calendar date exactly
as seen by a caller at UTC offset zero); concretely, the instant
2024-01-15 10:30 UTC yields the key `"2024-01-15"`. -/
theorem todayKey_is_utc_date :
    (∀ t : Int, todayKeyOf t = localDayKey t 0) ∧
    todayKeyOf (19737 * 1440 + 630) = "2024-01-15" := by
  constructor
  · intro t
    simp [todayKeyOf, localDayKey]
  · decide

/-- C5: last write wins within a second.  Two `logEntry` calls that map to
the identical time key leave the current day-log with exactly one binding
for that key, holding the text of the second call (for any session state
whose current view has unique keys, as every JS object does). -/
theorem same_second_last_write_wins (s : SessionState) (t v₁ v₂ : String)
    (h : NodupKeys (currentView s)) :
    countKey (currentView (logEntry (logEntry s t v₁).1 t v₂).1) t = 1 ∧
    getKey (currentView (logEntry (logEntry s t v₁).1 t v₂).1) t = some v₂ := by
  rw [currentView_logEntry, currentView_logEntry, setKey_setKey_self]
  exact ⟨countKey_setKey_self _ _ _ h, getKey_setKey_self _ _ _⟩

theorem same_second_last_write_wins_witness :
    NodupKeys (currentView (part000Init none "2024-01-15")) ∧
    (countKey (currentView (logEntry (logEntry (part000Init none "2024-01-15")
        "10:00:00" "a").1 "10:00:00" "b").1) "10:00:00" = 1 ∧
      getKey (currentView (logEntry (logEntry (part000Init none "2024-01-15")
        "10:00:00" "a").1 "10:00:00" "b").1) "10:00:00" = some "b") :=
  ⟨by decide, same_second_last_write_wins (part000Init none "2024-01-15")
    "10:00:00" "a" "b" (by decide)⟩

/-- C6: a submission whose text trims to the empty string is a no-op: the
handlers test the trimmed string's truthiness before calling `logEntry`,
so the state (collection and view alike) is unchanged and no persistence
write happens. -/
theorem blank_submit_is_noop (s : SessionState) (raw timeKey : String)
    (h : jsTrim raw = "") : submit s raw timeKey = (s, []) := by
  simp [submit, h]

theorem blank_submit_is_noop_witness :
    jsTrim "   " = "" ∧
    submit ⟨[("2024-01-15", [])], "2024-01-15", CurrentRef.today⟩ "   " "10:00:00" =
      (⟨[("2024-01-15", [])], "2024-01-15", CurrentRef.today⟩, []) :=
  ⟨by decide,
    blank_submit_is_noop ⟨[("2024-01-15", [])], "2024-01-15", CurrentRef.today⟩
      "   " "10:00:00" (by decide)⟩

/-- C7: both rendered lists are ordered by key in descending lexicographic
order.  The today list is a permutation of the current view's entries with
non-increasing keys; the all-history list has non-increasing day keys and
every rendered day's entries have non-increasing time keys; and on the
spec's concrete examples the times `09:00:00, 14:20:00, 08:15:00` render
as `14:20:00, 09:00:00, 08:15:00` and day `2024-01-16` renders before
`2024-01-15`. -/
theorem render_sorted_descending :
    (∀ s : SessionState, List.Pairwise KeyDesc (renderToday s) ∧
      List.Perm (renderToday s) (currentView s)) ∧
    (∀ logs : LogCollection, List.Pairwise KeyDesc (renderAll logs) ∧
      List.Forall (fun p => List.Pairwise KeyDesc p.2) (renderAll logs)) ∧
    (renderToday ⟨[("2024-01-15",
        [("09:00:00", "a"), ("14:20:00", "b"), ("08:15:00", "c")])],
      "2024-01-15", CurrentRef.today⟩).map Prod.fst =
      ["14:20:00", "09:00:00", "08:15:00"] ∧
    (renderAll [("2024-01-15", []), ("2024-01-16", [])]).map Prod.fst =
      ["2024-01-16", "2024-01-15"] := by
  refine ⟨fun s => ⟨pairwise_sortDesc _, sortDesc_perm _⟩, fun logs => ⟨?_, ?_⟩,
    by decide, by decide⟩
  · rw [renderAll, List.pairwise_map]
    exact (pairwise_sortDesc logs).imp (fun h => h)
  · rw [List.forall_iff_forall_mem]
    intro x hx
    rcases List.mem_map.mp hx with ⟨y, _, rfl⟩
    exact pairwise_sortDesc y.2

/-- C8: every successful (non-blank) submission performs exactly one
persistence write, and that write carries the full post-mutation collection
under `logs` together with the current-day view under `currentLog` — never
a delta. -/
theorem mutation_writes_full_collection (s : SessionState) (raw timeKey : String)
    (h : jsTrim raw ≠ "") :
    (submit s raw timeKey).2 =
      [⟨(submit s raw timeKey).1.logs, currentView (submit s raw timeKey).1⟩] := by
  simp only [submit, h, if_false, logEntry_write_eq]

theorem mutation_writes_full_collection_witness :
    jsTrim "tea" ≠ "" ∧
    (submit ⟨[("2024-01-15", [])], "2024-01-15", CurrentRef.today⟩ "tea" "10:00:00").2 =
      [⟨(submit ⟨[("2024-01-15", [])], "2024-01-15", CurrentRef.today⟩
          "tea" "10:00:00").1.logs,
        currentView (submit ⟨[("2024-01-15", [])], "2024-01-15", CurrentRef.today⟩
          "tea" "10:00:00").1⟩] :=
  ⟨by decide,
    mutation_writes_full_collection ⟨[("2024-01-15", [])], "2024-01-15",
      CurrentRef.today⟩ "tea" "10:00:00" (by decide)⟩

/-- C9: `logEntry` is frame-preserving.  It touches at most the binding for
the computed time key in the day-log the view refers to: every day other
than today keeps its entire day-log, every other time key keeps its value,
and no entry present before is removed. -/
theorem logEntry_frame (s : SessionState) (timeKey text : String) :
    (∀ d : String, d ≠ s.todayKey →
      getKey (logEntry s timeKey text).1.logs d = getKey s.logs d) ∧
    (∀ u : String, u ≠ timeKey →
      getKey (currentView (logEntry s timeKey text).1) u =
        getKey (currentView s) u) ∧
    (∀ u : String, (getKey (currentView s) u).isSome = true →
      (getKey (currentView (logEntry s timeKey text).1) u).isSome = true) := by
  refine ⟨?_, ?_, ?_⟩
  · intro d hd
    cases hc : s.cur with
    | today => simp [logEntry, hc, getKey_setKey_ne _ _ _ _ hd]
    | detached dl => simp [logEntry, hc]
  · intro u hu
    rw [currentView_logEntry, getKey_setKey_ne _ _ _ _ hu]
  · intro u hu
    by_cases h : u = timeKey
    · subst h
      rw [currentView_logEntry, getKey_setKey_self]
      rfl
    · rw [currentView_logEntry, getKey_setKey_ne _ _ _ _ h]
      exact hu

theorem logEntry_frame_witness :
    (("2024-01-14" : String) ≠ "2024-01-15" ∧ ("08:00:00" : String) ≠ "09:00:00") ∧
    getKey (logEntry ⟨[("2024-01-15", [("08:00:00", "m")]),
        ("2024-01-14", [("10:00:00", "x")])], "2024-01-15", CurrentRef.today⟩
        "09:00:00" "tea").1.logs "2024-01-14" =
      getKey (⟨[("2024-01-15", [("08:00:00", "m")]),
        ("2024-01-14", [("10:00:00", "x")])], "2024-01-15",
        CurrentRef.today⟩ : SessionState).logs "2024-01-14" ∧
    getKey (currentView (logEntry ⟨[("2024-01-15", [("08:00:00", "m")]),
        ("2024-01-14", [("10:00:00", "x")])], "2024-01-15", CurrentRef.today⟩
        "09:00:00" "tea").1) "08:00:00" =
      getKey (currentView ⟨[("2024-01-15", [("08:00:00", "m")]),
        ("2024-01-14", [("10:00:00", "x")])], "2024-01-15",
        CurrentRef.today⟩) "08:00:00" :=
  ⟨⟨by decide, by decide⟩,
    (logEntry_frame ⟨[("2024-01-15", [("08:00:00", "m")]),
        ("2024-01-14", [("10:00:00", "x")])], "2024-01-15", CurrentRef.today⟩
        "09:00:00" "tea").1 "2024-01-14" (by decide),
    (logEntry_frame ⟨[("2024-01-15", [("08:00:00", "m")]),
        ("2024-01-14", [("10:00:00", "x")])], "2024-01-15", CurrentRef.today⟩
        "09:00:00" "tea").2.1 "08:00:00" (by decide)⟩

/-- C10 (counterexample): the two source variants are not equivalent at
initialization.  On the persisted collection `{"2024-01-14": {"10:00:00":
"x"}}` opened on `2024-01-15`, `src/popup.js` leaves the collection
unchanged with a detached empty view, while `src/unnamed/part_000` inserts
an empty day-log for today and aliases it. -/
theorem variants_differ_on_missing_todayKey :
    popupInit (some [("2024-01-14", [("10:00:00", "x")])]) "2024-01-15" ≠
      part000Init (some [("2024-01-14", [("10:00:00", "x")])]) "2024-01-15" := by
  decide

/-- C10 (amended): the two initializations agree whenever the persisted
collection is empty or already contains today's key (given the always-true
sanity condition that no persisted day key is the empty string); they
diverge exactly when the collection is non-empty and lacks today's key. -/
theorem variants_agree_when_today_present_or_empty
    (p : Option LogCollection) (k : String)
    (hkeys : "" ∉ keys (p.getD []))
    (h : p.getD [] = [] ∨ (getKey (p.getD []) k).isSome = true) :
    popupInit p k = part000Init p k := by
  rcases h with h | h
  · simp [popupInit, part000Init, h, keys, sortAsc, jsAtLast, jsFalsyStr,
      setKey, getKey]
  · have hne : sortAsc (keys (p.getD [])) ≠ [] := by
      cases hp : p.getD [] with
      | nil => rw [hp] at h; simp [getKey] at h
      | cons hd tl =>
        have : keys (hd :: tl) = hd.1 :: keys tl := rfl
        rw [this]
        exact sortAsc_ne_nil _ _
    obtain ⟨m, hm⟩ := Option.isSome_iff_exists.mp (jsAtLast_isSome _ hne)
    have hmmem : m ∈ keys (p.getD []) :=
      (mem_sortAsc m _).mp (jsAtLast_mem _ m hm)
    have hmne : ¬(m = "") := fun he => hkeys (he ▸ hmmem)
    obtain ⟨d, hdk⟩ := Option.isSome_iff_exists.mp h
    simp [popupInit, part000Init, hm, jsFalsyStr, hmne, hdk]

theorem variants_agree_witness :
    ("" ∉ keys ((none : Option LogCollection).getD [])) ∧
    ((none : Option LogCollection).getD [] = [] ∨
      (getKey ((none : Option LogCollection).getD []) "2024-02-01").isSome = true) ∧
    popupInit none "2024-02-01" = part000Init none "2024-02-01" :=
  ⟨by simp [keys], Or.inl rfl,
    variants_agree_when_today_present_or_empty none "2024-02-01"
      (by simp [keys]) (Or.inl rfl)⟩

end DailyLog
